import Mathlib

/-!
Verification of the `obsidian-copy-to-mp` plugin (src/script-release.mjs)
against its natural-language specification.

The JavaScript source is shallowly embedded: pure string manipulation
becomes functions over `List Char` / `String`, promises become records of a
settle time and an `Except` outcome, the DOM is abstracted to the exact
attributes the transformation passes read and write, and external
collaborators (the vault adapter, the canvas, `decodeURI`, CSS selector
matching) are parameters of the embedding.
-/

set_option maxHeartbeats 1000000
set_option linter.unusedVariables false
set_option maxRecDepth 10000

/-- Shorthand: the character list underlying a string literal. -/
def jstr (s : String) : List Char := s.data

/-! ### Promises and the batch-join combinator (`allWithProgress`, lines 63-79)

A settled JavaScript promise is modelled as the time at which it settles
together with its outcome.  `Promise.all` settles with the list of values at
the time the last promise fulfils, or rejects with the reason of the
earliest-settling rejection, at that rejection's time, without waiting for
the remaining promises. -/

structure SPromise (α : Type) where
  time : Nat
  result : Except String α

/-- The earliest-settling rejection of a batch (time and reason); `none` when
every promise fulfils.  Ties are resolved in list order, as handler
registration order does in the event loop. -/
def firstRejection {α : Type} : List (SPromise α) → Option (Nat × String)
  | [] => none
  | p :: ps =>
    match p.result, firstRejection ps with
    | Except.error e, some (t, e2) =>
      if t < p.time then some (t, e2) else some (p.time, e)
    | Except.error e, none => some (p.time, e)
    | Except.ok _, r => r

/-- Time at which the last promise of a batch settles. -/
def lastSettleTime {α : Type} (ps : List (SPromise α)) : Nat :=
  ps.foldr (fun p acc => max p.time acc) 0

/-- `Promise.all`: fulfils with all values once every promise fulfils;
rejects at the earliest rejection without waiting for the siblings. -/
def promiseAll {α : Type} (ps : List (SPromise α)) : SPromise (List α) :=
  match firstRejection ps with
  | some (t, e) => ⟨t, Except.error e⟩
  | none => ⟨lastSettleTime ps, Except.ok (ps.filterMap (fun p => p.result.toOption))⟩

/-- The sequence of values passed to the progress callback: `callback(0)`
up front, then `count * 100 / length` once per settled promise — the
`.then` and `.catch` handlers both increment `count`, so rejections are
counted exactly like fulfilments (lines 64-77). -/
def progressTrace (n : Nat) : List ℚ :=
  0 :: (List.range n).map (fun k : Nat => (((k : ℚ) + 1) * 100) / (n : ℚ))

/-- `allWithProgress` (lines 63-79): registers the progress handlers and
returns `Promise.all(promises)`.  First component: the returned join;
second: the full trace of values the callback receives. -/
def allWithProgress {α : Type} (ps : List (SPromise α)) :
    SPromise (List α) × List ℚ :=
  (promiseAll ps, progressTrace ps.length)

/-- Outcome of `doCopy`'s try/catch/finally (lines 227-279): on an error the
catch shows the `copy failed` notice, on success the success notice; the
finally clears `copyIsRunning` on every path. -/
structure CopyEnd where
  success : Bool
  notice : String
  copyIsRunning : Bool

/-- The tail of `doCopy` applied to the outcome of the awaited pipeline. -/
def doCopyFinish {α : Type} : Except String α → CopyEnd
  | Except.error e => ⟨false, "copy failed: " ++ e, false⟩
  | Except.ok _ => ⟨true, "复制成功！", false⟩

/-! ### The completion detector (`untilRendered`, lines 644-651)

```
while (ppIsProcessing || Date.now() - ppLastBlockDate < this.optionRenderSettlingDelay) {
  if (ppLastBlockDate === 0) { break; }
  await delay(20);
}
```

The loop is embedded as a fuel-indexed step function over the state the
loop reads.  In a run where no markdown block is ever post-processed the
two globals never change (the only writers are the two post-processors,
lines 130-139), so they are plain parameters here; `now` advances by the
20ms poll interval on each iteration.  The value is the number of `delay`
iterations performed before exit, `none` when the loop has not exited
within `fuel` iterations. -/
def untilRenderedSteps (fuel : Nat) (ppIsProcessing : Bool)
    (ppLastBlockDate : Nat) (now : Nat) (settling : Nat) : Option Nat :=
  match fuel with
  | 0 => none
  | fuel + 1 =>
    if ppIsProcessing || decide ((now : Int) - (ppLastBlockDate : Int) < (settling : Int)) then
      if ppLastBlockDate = 0 then some 0
      else
        match untilRenderedSteps fuel ppIsProcessing ppLastBlockDate (now + 20) settling with
        | some n => some (n + 1)
        | none => none
    else some 0

/-- `doCopy`'s reset of the detector state (lines 231-232):
`ppLastBlockDate = Date.now(); ppIsProcessing = true;`.  Returns the pair
`(ppIsProcessing, ppLastBlockDate)`.  Note the module never assigns the
literal `0` to `ppLastBlockDate`: it is initialised to `Date.now()` at load
time (line 45) and only ever set to `Date.now()` afterwards (lines 136, 231). -/
def doCopyReset (now : Nat) : Bool × Nat := (true, now)

/-! ### Entry-point guards (mutual exclusion, lines 105-126, 164-185, 421-437) -/

/-- The `smart-copy-to-mp` `checkCallback` (lines 108-125).  Returns the
callback's boolean result together with whether `copyFromView` is invoked. -/
def smartCopyCheckCallback (copyIsRunning : Bool) (hasActiveView : Bool)
    (checking : Bool) : Bool × Bool :=
  if copyIsRunning then (false, false)
  else if !hasActiveView then (false, false)
  else (true, !checking)

/-- `copyFromFile` (lines 421-437), the file-menu entry point: whether it
proceeds into `doCopy`.  The `copyIsRunning` argument is the state of the
mutual-exclusion flag at click time; the source never reads it on this
path (its only guards are the `TFile` check and the `.md` extension check). -/
def copyFromFileStartsCopy (copyIsRunning : Bool) (isTFile : Bool)
    (extension : List Char) : Bool :=
  if !isTFile then false
  else if extension.map Char.toLower ≠ jstr "md" then false
  else true

/-! ### Mime-type inference (`getExtension` / `guessMimeType`, lines 913-925)

```
private guessMimeType(filePath: string): string {
  const extension = this.getExtension(filePath) || 'png';
  return this.mimeMap.get(extension) || `image/${extension}`;
}
private getExtension(filePath: string): string {
  const fileName = filePath.slice(filePath.lastIndexOf('/') + 1);
  return fileName.slice(fileName.lastIndexOf('.') + 1 || fileName.length).toLowerCase();
}
```
Strings are embedded as `List Char`; `lastIndexOf` and single-argument
`slice` keep their JavaScript semantics (including `-1` for a missing
character and the `|| fileName.length` falsiness trick when `lastIndexOf`
returns `-1`). -/

/-- Index of the last occurrence of `c` in `l`, if any. -/
def lastIndexOfAux (l : List Char) (c : Char) : Option Nat :=
  match l with
  | [] => none
  | x :: xs =>
    match lastIndexOfAux xs c with
    | some i => some (i + 1)
    | none => if x = c then some 0 else none

/-- JavaScript `String.prototype.lastIndexOf` for a single character:
the index of the last occurrence, `-1` when absent. -/
def jsLastIndexOf (l : List Char) (c : Char) : Int :=
  match lastIndexOfAux l c with
  | some i => (i : Int)
  | none => -1

/-- JavaScript single-argument `String.prototype.slice`: a negative start
counts from the end, a start past the end yields the empty string. -/
def jsSlice (l : List Char) (start : Int) : List Char :=
  if start < 0 then l.drop (l.length - (-start).toNat)
  else l.drop start.toNat

/-- `getExtension` (lines 920-925).  `fileName.lastIndexOf('.') + 1` is `0`
exactly when there is no `'.'`; JavaScript `0 || fileName.length` then
slices from the end, producing the empty extension. -/
def getExtension (filePath : List Char) : List Char :=
  let fileName := jsSlice filePath (jsLastIndexOf filePath '/' + 1)
  let idx : Int := jsLastIndexOf fileName '.' + 1
  let start : Int := if idx = 0 then (fileName.length : Int) else idx
  (jsSlice fileName start).map Char.toLower

/-- `mimeMap` (lines 501-504): the only extensions whose mime type differs
from `image/<extension>`. -/
def mimeMap : List (List Char × List Char) :=
  [(jstr "svg", jstr "image/svg+xml"), (jstr "jpg", jstr "image/jpeg")]

/-- `guessMimeType` (lines 914-917); `extension || 'png'` defaults the empty
extension to `png`. -/
def guessMimeType (filePath : List Char) : List Char :=
  let extension := if getExtension filePath = [] then jstr "png" else getExtension filePath
  match mimeMap.lookup extension with
  | some m => m
  | none => jstr "image/" ++ extension

/-! Spec-side rendition of the mime inference, written from the spec's
words: "derive from the file extension (case-insensitive, text after the
last `.` in the last `/`-delimited path segment); special-case two
extensions (`svg`→`image/svg+xml`, `jpg`→`image/jpeg`); otherwise default
to `image/<extension>`; if no extension exists, default to `png`." -/

/-- The text after the last occurrence of `c`, `none` when `c` is absent. -/
def afterLastChar (c : Char) : List Char → Option (List Char)
  | [] => none
  | x :: xs =>
    match afterLastChar c xs with
    | some r => some r
    | none => if x = c then some xs else none

/-- Spec: the last `/`-delimited path segment. -/
def lastSegmentSpec (p : List Char) : List Char :=
  (afterLastChar '/' p).getD p

/-- Spec: the case-insensitive extension — text after the last `.` of the
last segment; an absent or empty extension counts as "no extension". -/
def extensionSpec (p : List Char) : Option (List Char) :=
  match afterLastChar '.' (lastSegmentSpec p) with
  | some e => if e = [] then none else some (e.map Char.toLower)
  | none => none

/-- Spec: the inferred mime type. -/
def guessMimeTypeSpec (p : List Char) : List Char :=
  match extensionSpec p with
  | none => jstr "image/png"
  | some e =>
    if e = jstr "svg" then jstr "image/svg+xml"
    else if e = jstr "jpg" then jstr "image/jpeg"
    else jstr "image/" ++ e

/-! ### The image resolution engine (lines 747-929)

External collaborators are an environment: `decode` is `decodeURI`,
`vaultRead` is `app.vault.getAbstractFileByPath` + `readBinary` +
`arrayBufferToBase64` (`none` when the path does not resolve to a file, in
which case `readFromVault` throws, line 907), and `canvas` is the outcome
of loading `url` into an `Image` and exporting the canvas: `success png`
when `onload` fires and `toDataURL('image/png')` succeeds, `exportFailure`
when `toDataURL` throws (tainted canvas), `loadFailure` when `onerror`
fires.  All are functions, so resolution is deterministic per URL. -/

inductive CanvasOutcome where
  | success (png : List Char)
  | exportFailure
  | loadFailure

structure ImgEnv where
  vaultPrefix : List Char
  decode : List Char → List Char
  vaultRead : List Char → Option (List Char)
  canvas : List Char → CanvasOutcome

/-- `imageToDataUri` (lines 859-899): on load the canvas is drawn and
exported — on export failure the promise resolves with the original `url`
(line 884); on `onerror` it also resolves with the original `url`
(line 892).  Every branch resolves, so the embedding is a total function. -/
def imageToDataUri (env : ImgEnv) (url : List Char) : List Char :=
  match env.canvas url with
  | CanvasOutcome.success png => png
  | CanvasOutcome.exportFailure => url
  | CanvasOutcome.loadFailure => url

/-- `.replace(/[?#].*/, '')` (line 835): removes everything from the first
`?` or `#` up to (excluding) the next newline — `.` does not match `\n`
and the regex is not global, so only the first such run is removed. -/
def stripQueryFragment : List Char → List Char
  | [] => []
  | c :: cs =>
    if c = '?' ∨ c = '#' then cs.dropWhile (fun d => d ≠ '\n')
    else c :: stripQueryFragment cs

/-- `readFromVault` (lines 904-911): `data:<mime>;base64,<payload>`, or a
thrown `File not found` when the path does not resolve. -/
def readFromVault (env : ImgEnv) (path : List Char) (mimeType : List Char) :
    Except (List Char) (List Char) :=
  match env.vaultRead path with
  | none => Except.error (jstr "File not found: " ++ path)
  | some b64 => Except.ok (jstr "data:" ++ mimeType ++ jstr ";base64," ++ b64)

/-- `replaceImageSource` (lines 829-854): vault-local sources are read from
the vault (rasterised when the mime is svg and conversion is on); any other
source is drawn to a canvas.  The returned value is the new `img.src`;
an error is the rejection of the per-image promise. -/
def replaceImageSource (env : ImgEnv) (convertSvgToBitmap : Bool)
    (src : List Char) : Except (List Char) (List Char) :=
  let imageSourcePath := env.decode src
  if env.vaultPrefix.isPrefixOf imageSourcePath then
    let path := env.decode (stripQueryFragment (imageSourcePath.drop (env.vaultPrefix.length + 1)))
    let mimeType := guessMimeType path
    match readFromVault env path mimeType with
    | Except.error e => Except.error e
    | Except.ok data =>
      if mimeType = jstr "image/svg+xml" ∧ convertSvgToBitmap then
        Except.ok (imageToDataUri env data)
      else Except.ok data
  else
    Except.ok (imageToDataUri env src)

/-- The per-image body of `embedImages` (lines 751-777): an empty `src` is
falsy and skipped; an `image/svg+xml` data URI is re-rasterised when
conversion is on; any non-`data:` source is resolved; everything else is
left as-is. -/
def embedImageSrc (env : ImgEnv) (convertSvgToBitmap : Bool)
    (src : List Char) : Except (List Char) (List Char) :=
  if src = [] then Except.ok src
  else if (jstr "data:image/svg+xml").isPrefixOf src ∧ convertSvgToBitmap then
    replaceImageSource env convertSvgToBitmap src
  else if ¬ (jstr "data:").isPrefixOf src then
    replaceImageSource env convertSvgToBitmap src
  else Except.ok src

/-- Await-all over the per-image promises: the first rejection rejects the
batch (`Promise.all`, line 78), otherwise all resolved values are produced. -/
def mapME {α β : Type} (f : α → Except (List Char) β) : List α → Except (List Char) (List β)
  | [] => Except.ok []
  | a :: as =>
    match f a with
    | Except.error e => Except.error e
    | Except.ok b =>
      match mapME f as with
      | Except.error e => Except.error e
      | Except.ok bs => Except.ok (b :: bs)

/-- `embedImages` (lines 747-785) on the list of `img` `src` attributes of
the tree — the only parts of the tree the pass reads or writes. -/
def embedImages (env : ImgEnv) (convertSvgToBitmap : Bool)
    (imgs : List (List Char)) : Except (List Char) (List (List Char)) :=
  mapME (embedImageSrc env convertSvgToBitmap) imgs

/-! ### The inline style cascade (`applyInlineStyles`, lines 344-398)

Elements carry exactly what the pass reads and writes: the tag name
(`el.tagName`, upper-case), the inline `style` attribute, whether the
element sits inside a `.image-grid` container (`el.closest('.image-grid')`),
and the child list (rebuilt for `li` elements).  CSS selector matching
(`doc.querySelectorAll`) is a DOM service and enters as an oracle. -/

inductive Elem where
  | mk (tag : String) (styleAttr : Option String) (inImageGrid : Bool)
       (children : List Elem)

def Elem.tag : Elem → String
  | Elem.mk t _ _ _ => t

def Elem.styleAttr : Elem → Option String
  | Elem.mk _ s _ _ => s

def Elem.inImageGrid : Elem → Bool
  | Elem.mk _ _ g _ => g

def Elem.children : Elem → List Elem
  | Elem.mk _ _ _ cs => cs

/-- JavaScript member access `style[key]` on the selector→declaration
object: an absent key yields `undefined`, which string concatenation
coerces to the text `"undefined"`. -/
def styleGet (style : List (String × String)) (k : String) : String :=
  (style.lookup k).getD "undefined"

/-- The per-matched-element body of the `Object.keys(style).forEach` loop
(lines 364-388): grid images are skipped; a `li` has its children wrapped
in a single fresh `p` and receives `style["li"]`; every other element
receives `style[selector]`; in both cases the declaration is appended to
the existing inline style as `currentStyle + '; ' + declaration`. -/
def applyRule (style : List (String × String)) (selector : String)
    (el : Elem) : Elem :=
  if el.tag = "IMG" ∧ el.inImageGrid then el
  else
    let currentStyle := el.styleAttr.getD ""
    if el.tag = "LI" then
      Elem.mk el.tag (some (currentStyle ++ "; " ++ styleGet style "li"))
        el.inImageGrid [Elem.mk "P" none false el.children]
    else
      Elem.mk el.tag (some (currentStyle ++ "; " ++ styleGet style selector))
        el.inImageGrid el.children

/-- One selector of the ruleset applied to the document (lines 357-389):
the selectors `pre`, `code` and `pre code` are skipped entirely; otherwise
every element the oracle reports as matching is rewritten by `applyRule`. -/
def applySelector (selMatches : String → Elem → Bool)
    (style : List (String × String)) (selector : String)
    (doc : List Elem) : List Elem :=
  if selector = "pre" ∨ selector = "code" ∨ selector = "pre code" then doc
  else doc.map (fun el => if selMatches selector el then applyRule style selector el else el)

/-- A value of the external `STYLES` catalog (`styles_temp.js`): the object
whose `.styles` member is the selector→declaration map (with a designated
`container` entry). -/
structure StyleObj where
  styles : List (String × String)

/-- Result of one `applyInlineStyles` call: the warnings written to the
console and either the styled container element or a thrown exception. -/
structure ApplyOutcome where
  warnings : List String
  result : Except String Elem

/-- `applyInlineStyles` (lines 344-398).  The style lookup comes first:
`STYLES[styleKey]` (line 346), a warning when it is undefined (line 348) —
and then line 350 reads `styleObj.styles` unconditionally, which on an
unknown style name throws a `TypeError` (member access on `undefined`).
On a known style the selectors are iterated in object-key order and the
result is wrapped in a container `div` carrying `style.container`. -/
def applyInlineStyles (selMatches : String → Elem → Bool)
    (STYLES : List (String × StyleObj)) (doc : List Elem)
    (applyStyle : String) : ApplyOutcome :=
  let styleObj := STYLES.lookup applyStyle
  let warnings :=
    if styleObj.isNone then ["样式 " ++ applyStyle ++ " 不存在，使用默认样式"] else []
  match styleObj with
  | none =>
    ⟨warnings, Except.error "TypeError: cannot read properties of undefined (reading styles)"⟩
  | some so =>
    let style := so.styles
    let styled := style.foldl (fun d kv => applySelector selMatches style kv.1 d) doc
    ⟨warnings, Except.ok (Elem.mk "DIV" (some (styleGet style "container")) false styled)⟩

/-! ### HTML template expansion (`expandHtmlTemplate`, lines 445-455)

```
return template
  .replace('${title}', title)
  .replace('${body}', html)
  .replace('${stylesheet}', this.settings.styleSheet)
  // .replace('${MERMAID_STYLESHEET}', MERMAID_STYLESHEET);
```
`String.prototype.replace` with a string pattern replaces only the first
occurrence (and is the identity when the pattern is absent).  The
`${MERMAID_STYLESHEET}` line is commented out, so that placeholder is never
substituted. -/

/-- ECMA-262 GetSubstitution for a string search pattern: in the
replacement string, `$$` inserts a dollar sign, `$&` the matched text,
`$` + backquote (code 96) the portion of the target before the match, and
`$` + quote (code 39) the portion after it.  A string pattern has no
capture groups and no named captures, so every other `$` (including `$1`,
`$<`, or a trailing `$`) stays literal. -/
def getSubstitution (matched before after : List Char) : List Char → List Char
  | [] => []
  | [c] => if c = '$' then ['$'] else [c]
  | c :: d :: rest2 =>
    if c = '$' then
      if d = '$' then '$' :: getSubstitution matched before after rest2
      else if d = '&' then matched ++ getSubstitution matched before after rest2
      else if d = Char.ofNat 96 then before ++ getSubstitution matched before after rest2
      else if d = Char.ofNat 39 then after ++ getSubstitution matched before after rest2
      else c :: d :: getSubstitution matched before after rest2
    else c :: getSubstitution matched before after (d :: rest2)

/-- JavaScript `String.prototype.replace` with a string search pattern:
only the first occurrence is replaced, and the replacement string goes
through `getSubstitution` with the matched text (the pattern itself) and
the surrounding context.  `before` accumulates the part of the original
string already passed over. -/
def replaceFirstAux (before s pat rep : List Char) : List Char :=
  match s with
  | [] => if pat.isPrefixOf [] then getSubstitution pat before [] rep else []
  | c :: cs =>
    if pat.isPrefixOf (c :: cs) then
      getSubstitution pat before ((c :: cs).drop pat.length) rep
        ++ (c :: cs).drop pat.length
    else c :: replaceFirstAux (before ++ [c]) cs pat rep

/-- `s.replace(pat, rep)` for a string pattern `pat`. -/
def replaceFirstL (s pat rep : List Char) : List Char :=
  replaceFirstAux [] s pat rep

/-- `DEFAULT_HTML_TEMPLATE` (lines 47-61). -/
def DEFAULT_HTML_TEMPLATE : List Char :=
  jstr "<!DOCTYPE html>\n<html>\n<head>\n  <meta charset=\"utf-8\">\n  <title>${title}</title>\n  <style>\n    ${MERMAID_STYLESHEET}\n    ${stylesheet}\n  </style>\n</head>\n<body>\n${body}\n</body>\n</html>\n"

/-- `expandHtmlTemplate` (lines 445-455): the three live `.replace` calls in
source order — title, then body, then stylesheet. -/
def expandHtmlTemplate (title html styleSheet : List Char) : List Char :=
  replaceFirstL
    (replaceFirstL
      (replaceFirstL DEFAULT_HTML_TEMPLATE (jstr "${title}") title)
      (jstr "${body}") html)
    (jstr "${stylesheet}") styleSheet

/-- Template text before `${title}`. -/
def tmplChunkA : List Char :=
  jstr "<!DOCTYPE html>\n<html>\n<head>\n  <meta charset=\"utf-8\">\n  <title>"

/-- Template text between `${title}` and `${stylesheet}` — it contains the
untouched `${MERMAID_STYLESHEET}` placeholder. -/
def tmplChunkB : List Char :=
  jstr "</title>\n  <style>\n    ${MERMAID_STYLESHEET}\n    "

/-- Template text between `${stylesheet}` and `${body}`. -/
def tmplChunkC : List Char :=
  jstr "\n  </style>\n</head>\n<body>\n"

/-- Template text after `${body}`. -/
def tmplChunkD : List Char :=
  jstr "\n</body>\n</html>\n"

/-- The placeholder the commented-out line would have replaced. -/
def mermaidPlaceholder : List Char := jstr "${MERMAID_STYLESHEET}"

/-! ### The list normalizer (`preprocessMarkdownList`, lines 334-341)

```
content = content.replace(/^(\s*(?:\d+\.|-|\*)\s+[^:\n]+)\n\s*:\s*(.+?)$/gm, '$1: $2');
content = content.replace(/^(\s*(?:\d+\.|-|\*)\s+.+?:)\s*\n\s+(.+?)$/gm, '$1 $2');
content = content.replace(/^(\s*(?:\d+\.|-|\*)\s+[^:\n]+)\n:\s*(.+?)$/gm, '$1: $2');
content = content.replace(/^(\s*(?:\d+\.|-|\*)\s+.+?)\n\n\s+(.+?)$/gm, '$1 $2');
```

A small backtracking matcher for exactly the JavaScript regex constructs
these four patterns use: literal characters, character classes, greedy and
lazy repetition, alternation, capturing groups, and the multiline `^`/`$`
anchors.  Greedy repetition prefers consuming another repetend; lazy
repetition prefers the continuation; a repetition iteration that consumes
nothing ends the repetition (the engine's empty-match rule).  Global
`replace` scans for the leftmost match from the end of the previous one. -/

inductive RE where
  | empty
  | char (c : Char)
  | cls (p : Char → Bool)
  | seq (a b : RE)
  | alt (a b : RE)
  | star (greedy : Bool) (a : RE)
  | group (idx : Nat) (a : RE)
  | bol
  | eol

/-- Captured groups: index ↦ (start, end) positions; most recent first. -/
def Caps : Type := List (Nat × (Nat × Nat))

/-- The backtracking matcher in continuation-passing style, bounded by
`fuel` (every recursive call decreases it; the bound is never reached on
the inputs considered, it only makes the definition total). -/
def mtch (full : List Char) : Nat → RE → Nat → Caps →
    (Nat → Caps → Option (Nat × Caps)) → Option (Nat × Caps)
  | 0, _, _, _, _ => none
  | fuel + 1, re, pos, caps, k =>
    match re with
    | RE.empty => k pos caps
    | RE.char c =>
      match full.get? pos with
      | some d => if d = c then k (pos + 1) caps else none
      | none => none
    | RE.cls p =>
      match full.get? pos with
      | some d => if p d then k (pos + 1) caps else none
      | none => none
    | RE.seq a b =>
      mtch full fuel a pos caps (fun p2 c2 => mtch full fuel b p2 c2 k)
    | RE.alt a b =>
      match mtch full fuel a pos caps k with
      | some r => some r
      | none => mtch full fuel b pos caps k
    | RE.star true a =>
      match mtch full fuel a pos caps
          (fun p2 c2 => if p2 = pos then none else mtch full fuel (RE.star true a) p2 c2 k) with
      | some r => some r
      | none => k pos caps
    | RE.star false a =>
      match k pos caps with
      | some r => some r
      | none =>
        mtch full fuel a pos caps
          (fun p2 c2 => if p2 = pos then none else mtch full fuel (RE.star false a) p2 c2 k)
    | RE.group n a =>
      mtch full fuel a pos caps (fun p2 c2 => k p2 ((n, (pos, p2)) :: c2))
    | RE.bol =>
      if pos = 0 ∨ full.get? (pos - 1) = some '\n' then k pos caps else none
    | RE.eol =>
      if pos = full.length ∨ full.get? pos = some '\n' then k pos caps else none

/-- Attempt a match of `re` at position `i`; on success the end position
and the captures. -/
def tryAt (re : RE) (full : List Char) (i : Nat) : Option (Nat × Caps) :=
  mtch full 1000 re i [] (fun p cs => some (p, cs))

/-- A piece of a replacement template: literal text or `$n`. -/
inductive TmplPart where
  | lit (s : List Char)
  | cap (n : Nat)

/-- Instantiate a replacement template with the captures of a match
(an unmatched group substitutes as the empty string, as in JavaScript). -/
def subst (tmpl : List TmplPart) (caps : Caps) (full : List Char) : List Char :=
  tmpl.foldr
    (fun part acc =>
      match part with
      | TmplPart.lit s => s ++ acc
      | TmplPart.cap n =>
        match caps.lookup n with
        | some (s, e) => (full.drop s).take (e - s) ++ acc
        | none => acc)
    []

/-- The scan of a global `replace`: from position `i`, emit either the
replacement of a match (resuming at its end, stepping one character on an
empty match) or the current character. -/
def scanRepl (re : RE) (tmpl : List TmplPart) (full : List Char) :
    Nat → Nat → List Char
  | 0, _ => []
  | fuel + 1, i =>
    match tryAt re full i with
    | some (e, caps) =>
      let repl := subst tmpl caps full
      if e = i then
        match full.get? i with
        | some c => repl ++ c :: scanRepl re tmpl full fuel (i + 1)
        | none => repl
      else repl ++ scanRepl re tmpl full fuel e
    | none =>
      match full.get? i with
      | some c => c :: scanRepl re tmpl full fuel (i + 1)
      | none => []

/-- JavaScript `String.prototype.replace` with a `/.../gm` regex. -/
def jsReplaceGM (re : RE) (tmpl : List TmplPart) (input : List Char) : List Char :=
  scanRepl re tmpl input (input.length + 1) 0

/-- JavaScript `\s` (the whitespace characters occurring in the inputs at
hand; the full class also has the exotic Unicode spaces). -/
def isJsSpace (c : Char) : Bool :=
  c = ' ' || c = '\t' || c = '\n' || c = '\r' || c = '\x0b' || c = '\x0c' || c = '\xa0'

def isJsDigit (c : Char) : Bool := '0' ≤ c && c ≤ '9'

def reWs : RE := RE.cls isJsSpace

/-- `.` without the `s` flag: any character but a newline. -/
def reDot : RE := RE.cls (fun c => c ≠ '\n')

/-- `[^:\n]`. -/
def reNotColonNl : RE := RE.cls (fun c => !(c = ':' || c = '\n'))

def rePlusG (r : RE) : RE := RE.seq r (RE.star true r)

def rePlusL (r : RE) : RE := RE.seq r (RE.star false r)

def reSeqL (l : List RE) : RE := l.foldr RE.seq RE.empty

/-- `(?:\d+\.|-|\*)` — a list marker. -/
def reBullet : RE :=
  RE.alt (RE.seq (rePlusG (RE.cls isJsDigit)) (RE.char '.'))
    (RE.alt (RE.char '-') (RE.char '*'))

/-- `/^(\s*(?:\d+\.|-|\*)\s+[^:\n]+)\n\s*:\s*(.+?)$/gm` (line 336). -/
def listRe1 : RE :=
  reSeqL [RE.bol,
    RE.group 1 (reSeqL [RE.star true reWs, reBullet, rePlusG reWs, rePlusG reNotColonNl]),
    RE.char '\n', RE.star true reWs, RE.char ':', RE.star true reWs,
    RE.group 2 (rePlusL reDot), RE.eol]

/-- `/^(\s*(?:\d+\.|-|\*)\s+.+?:)\s*\n\s+(.+?)$/gm` (line 337). -/
def listRe2 : RE :=
  reSeqL [RE.bol,
    RE.group 1 (reSeqL [RE.star true reWs, reBullet, rePlusG reWs, rePlusL reDot, RE.char ':']),
    RE.star true reWs, RE.char '\n', rePlusG reWs,
    RE.group 2 (rePlusL reDot), RE.eol]

/-- `/^(\s*(?:\d+\.|-|\*)\s+[^:\n]+)\n:\s*(.+?)$/gm` (line 338). -/
def listRe3 : RE :=
  reSeqL [RE.bol,
    RE.group 1 (reSeqL [RE.star true reWs, reBullet, rePlusG reWs, rePlusG reNotColonNl]),
    RE.char '\n', RE.char ':', RE.star true reWs,
    RE.group 2 (rePlusL reDot), RE.eol]

/-- `/^(\s*(?:\d+\.|-|\*)\s+.+?)\n\n\s+(.+?)$/gm` (line 339). -/
def listRe4 : RE :=
  reSeqL [RE.bol,
    RE.group 1 (reSeqL [RE.star true reWs, reBullet, rePlusG reWs, rePlusL reDot]),
    RE.char '\n', RE.char '\n', rePlusG reWs,
    RE.group 2 (rePlusL reDot), RE.eol]

/-- `'$1: $2'` — the replacement of rules 1 and 3. -/
def tmplColon : List TmplPart := [TmplPart.cap 1, TmplPart.lit (jstr ": "), TmplPart.cap 2]

/-- `'$1 $2'` — the replacement of rules 2 and 4. -/
def tmplSpace : List TmplPart := [TmplPart.cap 1, TmplPart.lit (jstr " "), TmplPart.cap 2]

/-- `preprocessMarkdownList` (lines 334-341): the four rewrites in order. -/
def preprocessMarkdownList (content : List Char) : List Char :=
  let c1 := jsReplaceGM listRe1 tmplColon content
  let c2 := jsReplaceGM listRe2 tmplSpace c1
  let c3 := jsReplaceGM listRe3 tmplColon c2
  jsReplaceGM listRe4 tmplSpace c3

/-! ### Occurrence analysis for `replaceFirstL`

`noStartIn x y pat` says no occurrence of `pat` starts inside the prefix
`x` of `x ++ y`; `replaceFirstL` then commutes with that prefix.
`mismatchWithin`/`cleanChunk` give a decidable sufficient condition for a
concrete chunk, whatever follows it. -/

/-- No occurrence of `pat` starts at a position of `x` in `x ++ y`. -/
def noStartIn (x y pat : List Char) : Prop :=
  ∀ i, i < x.length → pat.isPrefixOf (x.drop i ++ y) = false

/-- `pat` disagrees with `t` somewhere inside their common range — so `pat`
cannot be a prefix of `t ++ y` for any `y`. -/
def mismatchWithin (t pat : List Char) : Bool :=
  (List.range (min t.length pat.length)).any (fun j => !(t[j]? == pat[j]?))

/-- At every position of `x`, `pat` mismatches inside `x` itself. -/
def cleanChunk (x pat : List Char) : Bool :=
  (List.range x.length).all (fun i => mismatchWithin (x.drop i) pat)

/-! ### Concrete inputs used by counterexamples and witnesses -/

/-- A two-image batch: the first resolution rejects at time 5 (a vault image
whose path does not resolve, `readFromVault` line 907), the second fulfils
later, at time 9. -/
def c1Batch : List (SPromise String) :=
  [⟨5, Except.error "File not found: img.png"⟩,
   ⟨9, Except.ok "data:image/png;base64,AA"⟩]

/-- An environment whose canvas always fails to load and whose vault is
empty. -/
def c5Env : ImgEnv :=
  ⟨jstr "app://local/v", id, fun _ => none, fun _ => CanvasOutcome.loadFailure⟩

/-- An environment whose vault holds one png image and whose canvas always
fails to load. -/
def c6Env : ImgEnv :=
  ⟨jstr "app://local/v", id,
   fun p => if p = jstr "img.png" then some (jstr "AAA") else none,
   fun _ => CanvasOutcome.loadFailure⟩

/-! ## Theorems -/

/-- C1 (counterexample): in the two-image batch `c1Batch` the rejection
settles at time 5 and its sibling only at time 9, yet the join returned by
`allWithProgress` (`Promise.all`) settles — rejected — already at time 5:
it does not wait for the sibling, and `doCopy`, awaiting it through
`embedImages`, ends in the failure branch, aborting the whole copy.  This
contradicts the claim that the combinator waits for every sibling to settle
and that a single failure never aborts the document-copy operation. -/
theorem allWithProgress_counterexample :
    (allWithProgress c1Batch).1.time = 5 ∧
    c1Batch.map (fun p => p.time) = [5, 9] ∧
    (allWithProgress c1Batch).1.result = Except.error "File not found: img.png" ∧
    (doCopyFinish (allWithProgress c1Batch).1.result).success = false := by
  refine ⟨rfl, rfl, rfl, rfl⟩

/-- C1 (amended): `allWithProgress` registers `.then`/`.catch` handlers on
every promise, so the progress callback is called once initially and once
per settled promise — failures counted like successes, the trace reaching
100 — but the join it returns is `Promise.all`: as soon as any resolution
rejects, the join rejects with that reason at the earliest rejection time,
without waiting for later-settling siblings, and the rejection propagates
through `embedImages`' `await` to `doCopy`, which shows the failure notice
and aborts the copy (clearing `copyIsRunning` in its `finally`). -/
theorem allWithProgress_amended {α : Type} (ps : List (SPromise α))
    (t : Nat) (e : String) (h : firstRejection ps = some (t, e)) :
    (allWithProgress ps).1.result = Except.error e ∧
    (allWithProgress ps).1.time = t ∧
    (doCopyFinish (allWithProgress ps).1.result).success = false ∧
    (doCopyFinish (allWithProgress ps).1.result).copyIsRunning = false ∧
    (allWithProgress ps).2.length = ps.length + 1 ∧
    (100 : ℚ) ∈ (allWithProgress ps).2 := by
  have hjoin : (allWithProgress ps).1 = ⟨t, Except.error e⟩ := by
    simp [allWithProgress, promiseAll, h]
  have hne : ps ≠ [] := by
    intro hnil
    rw [hnil] at h
    simp [firstRejection] at h
  have hlen : 1 ≤ ps.length := by
    cases ps with
    | nil => exact absurd rfl hne
    | cons a as => simp
  refine ⟨by rw [hjoin], by rw [hjoin], by rw [hjoin]; rfl, by rw [hjoin]; rfl, ?_, ?_⟩
  · simp only [allWithProgress, progressTrace, List.length_cons, List.length_map,
      List.length_range]
  · simp only [allWithProgress, progressTrace]
    refine List.mem_cons_of_mem _ (List.mem_map.mpr
      ⟨ps.length - 1, List.mem_range.mpr (Nat.sub_lt hlen Nat.one_pos), ?_⟩)
    have hn0 : (ps.length : ℚ) ≠ 0 := by
      exact_mod_cast Nat.one_le_iff_ne_zero.mp hlen
    have h1 : ((ps.length - 1 : Nat) : ℚ) + 1 = (ps.length : ℚ) := by
      rw [Nat.cast_sub hlen]
      ring
    rw [h1]
    field_simp

/-- C1 (witness for the amended theorem) at the concrete batch `c1Batch`. -/
theorem allWithProgress_amended_witness :
    (allWithProgress c1Batch).1.result = Except.error "File not found: img.png" ∧
    (allWithProgress c1Batch).1.time = 5 :=
  ⟨(allWithProgress_amended c1Batch 5 "File not found: img.png" rfl).1,
   (allWithProgress_amended c1Batch 5 "File not found: img.png" rfl).2.1⟩

/-- C2: on an unknown style name `applyInlineStyles` does log the warning
(line 348), but then line 350 reads `.styles` off the `undefined` lookup
result and throws — it does not skip the styling pass, and the exception
aborts the whole document copy (caught only by `doCopy`'s top-level
handler).  Evaluated at the failing input: a catalog without the requested
name. -/
theorem applyInlineStyles_unknown_style_throws :
    (applyInlineStyles (fun _ _ => false)
        [("wechat-default", ⟨[("container", "margin:0")]⟩)] [] "does-not-exist").warnings
      = ["样式 does-not-exist 不存在，使用默认样式"] ∧
    (applyInlineStyles (fun _ _ => false)
        [("wechat-default", ⟨[("container", "margin:0")]⟩)] [] "does-not-exist").result
      = Except.error "TypeError: cannot read properties of undefined (reading styles)" ∧
    (doCopyFinish ((applyInlineStyles (fun _ _ => false)
        [("wechat-default", ⟨[("container", "margin:0")]⟩)] [] "does-not-exist").result)).success
      = false := by
  refine ⟨rfl, rfl, rfl⟩

/-- C3 (counterexample): in a run that registers zero blocks, `doCopy`'s
reset (lines 231-232) leaves `ppLastBlockDate` at the current clock value —
1000 here, not the 0 sentinel — and `ppIsProcessing` at `true`, and with
that state `untilRendered` has not exited after 300 poll iterations (6
seconds): the detector does not report a zero-block document settled
immediately. -/
theorem untilRendered_zero_blocks_counterexample :
    doCopyReset 1000 = (true, 1000) ∧
    (doCopyReset 1000).2 ≠ 0 ∧
    untilRenderedSteps 300 (doCopyReset 1000).1 (doCopyReset 1000).2 1000 100 = none := by
  refine ⟨rfl, by decide, by decide⟩

/-- C3 (amended): `untilRendered`'s sentinel check does exit the loop
without a single delay whenever `ppLastBlockDate = 0` — but no assignment
in the program ever stores 0 there (it is initialised and reset to
`Date.now()`), and in a run with zero registered blocks `doCopy`'s reset
leaves `ppIsProcessing = true` with a nonzero timestamp, so the loop never
exits at any fuel. -/
theorem untilRendered_amended :
    (∀ fuel proc now settling, 1 ≤ fuel →
      untilRenderedSteps fuel proc 0 now settling = some 0) ∧
    (∀ fuel t0 now settling, t0 ≠ 0 →
      untilRenderedSteps fuel true t0 now settling = none) := by
  constructor
  · intro fuel proc now settling hf
    match fuel, hf with
    | f + 1, _ =>
      simp only [untilRenderedSteps]
      split
      · simp
      · simp
  · intro fuel
    induction fuel with
    | zero => intro t0 now settling ht; rfl
    | succ f ih =>
      intro t0 now settling ht
      simp only [untilRenderedSteps, Bool.true_or, if_true]
      rw [if_neg ht, ih t0 (now + 20) settling ht]

/-- C3 (witness for the amended theorem): the sentinel state exits with
zero delays; the actual zero-block state never exits. -/
theorem untilRendered_amended_witness :
    untilRenderedSteps 1 false 0 5000 100 = some 0 ∧
    untilRenderedSteps 7 true 42 42 100 = none :=
  ⟨untilRendered_amended.1 1 false 5000 100 (by decide),
   untilRendered_amended.2 7 42 42 100 (by decide)⟩

/-- C4: the command-palette entry point rejects a request while
`copyIsRunning` is true (`smartCopyCheckCallback` returns `false` and does
not invoke the copy), but the file-menu entry point `copyFromFile` never
consults `copyIsRunning`: clicking "复制到公众号" on an `.md` file while a
copy is in flight still proceeds into `doCopy`, starting a second
concurrent operation — contradicting the spec's "rejected immediately
through any entry point". -/
theorem copyFromFile_ignores_mutex :
    smartCopyCheckCallback true true false = (false, false) ∧
    copyFromFileStartsCopy true true (jstr "md") = true ∧
    copyFromFileStartsCopy false true (jstr "md") = true := by
  refine ⟨rfl, by decide, by decide⟩

/-- C5: `imageToDataUri` resolves on every canvas outcome (the embedding is
a total function: `onload` resolves with the export or, on an export
failure, with the original url, and `onerror` resolves with the original
url — lines 866-894), and on load failure or export failure the resolved
value is exactly the original source string; consequently
`replaceImageSource` on a non-vault source writes the element's original
value back unchanged. -/
theorem imageToDataUri_fallback (env : ImgEnv) (url : List Char)
    (h : env.canvas url = CanvasOutcome.loadFailure ∨
         env.canvas url = CanvasOutcome.exportFailure) :
    imageToDataUri env url = url ∧
    (∀ convertSvgToBitmap : Bool,
      env.vaultPrefix.isPrefixOf (env.decode url) = false →
      replaceImageSource env convertSvgToBitmap url = Except.ok url) := by
  have h1 : imageToDataUri env url = url := by
    unfold imageToDataUri
    rcases h with h | h <;> rw [h]
  refine ⟨h1, ?_⟩
  intro c hv
  unfold replaceImageSource
  simp only [hv, Bool.false_eq_true, if_false, h1]

/-- C5 (witness): a fabricated reference whose fetch always fails resolves
to its original value. -/
theorem imageToDataUri_fallback_witness :
    imageToDataUri c5Env (jstr "http://example.com/x.png")
      = jstr "http://example.com/x.png" :=
  (imageToDataUri_fallback c5Env (jstr "http://example.com/x.png") (Or.inl rfl)).1

/-- C7 (counterexample): a `li` element carrying inline style `color:red`,
matched by the ruleset selector `.foo` whose rule adds `font-size:14px`,
does not receive that rule's declarations: the special case at lines
371-383 appends the ruleset's `li` declaration instead, so the element ends
with `color:red; margin:4px` and `font-size:14px` is absent. -/
theorem applyRule_li_counterexample :
    (applyRule [("li", "margin:4px"), (".foo", "font-size:14px")] ".foo"
        (Elem.mk "LI" (some "color:red") false [])).styleAttr
      = some "color:red; margin:4px" ∧
    (applyRule [("li", "margin:4px"), (".foo", "font-size:14px")] ".foo"
        (Elem.mk "LI" (some "color:red") false [])).styleAttr
      ≠ some "color:red; font-size:14px" := by
  refine ⟨by decide, by decide⟩

/-- C7 (amended): for every matched element that is not an image inside an
`image-grid` container, `applyInlineStyles`' per-element step appends a
declaration to the existing inline style without replacing it — the new
attribute is the old value, then `"; "`, then the appended declaration (so
every pre-existing declaration precedes the added one); the appended
declaration is the matching rule's for every non-`li` element, and the
ruleset's `li` declaration for a `li` element. -/
theorem applyRule_append (style : List (String × String)) (selector : String)
    (el : Elem) (cur : String)
    (hskip : ¬ (el.tag = "IMG" ∧ el.inImageGrid = true))
    (hcur : el.styleAttr = some cur) :
    (applyRule style selector el).styleAttr
      = some (cur ++ "; " ++
          (if el.tag = "LI" then styleGet style "li" else styleGet style selector)) := by
  unfold applyRule
  rw [if_neg hskip]
  by_cases hli : el.tag = "LI"
  · rw [if_pos hli, hcur]
    simp [Elem.styleAttr, hli]
  · rw [if_neg hli, hcur]
    simp [Elem.styleAttr, hli]

/-- C7 (witness for the amended theorem): an `h2` with `color:red` matched
by a rule adding `font-size:14px` ends with both declarations, `color:red`
first. -/
theorem applyRule_append_witness :
    (applyRule [(".foo", "font-size:14px")] ".foo"
        (Elem.mk "H2" (some "color:red") false [])).styleAttr
      = some "color:red; font-size:14px" := by
  rw [applyRule_append [(".foo", "font-size:14px")] ".foo"
      (Elem.mk "H2" (some "color:red") false []) "color:red" (by decide) rfl]
  rfl

/-- C9: the list normalizer merges the colon-introduced continuation line
into the list item's line: `"- item one\n  : continuation text"` becomes
`"- item one: continuation text"` (rule 1 fires; rules 2-4 leave the merged
line unchanged). -/
theorem preprocessMarkdownList_example :
    preprocessMarkdownList (jstr "- item one\n  : continuation text")
      = jstr "- item one: continuation text" := by
  decide

/-! Helper lemmas relating `lastIndexOf`-and-`slice` to "text after the
last occurrence". -/

theorem afterLast_none (c : Char) (l : List Char)
    (h : lastIndexOfAux l c = none) : afterLastChar c l = none := by
  induction l with
  | nil => rfl
  | cons x xs ih =>
    simp only [lastIndexOfAux] at h
    cases h2 : lastIndexOfAux xs c with
    | some j => rw [h2] at h; exact absurd h (by simp)
    | none =>
      rw [h2] at h
      have hx : ¬ x = c := by
        intro hxc
        rw [if_pos hxc] at h
        exact absurd h (by simp)
      simp only [afterLastChar, ih h2, if_neg hx]

theorem afterLast_some (c : Char) (l : List Char) :
    ∀ i : Nat, lastIndexOfAux l c = some i →
      afterLastChar c l = some (l.drop (i + 1)) := by
  induction l with
  | nil => intro i h; exact absurd h (by simp [lastIndexOfAux])
  | cons x xs ih =>
    intro i h
    simp only [lastIndexOfAux] at h
    cases h2 : lastIndexOfAux xs c with
    | some j =>
      rw [h2] at h
      have hij : i = j + 1 := by
        cases h
        rfl
      subst hij
      simp only [afterLastChar, ih j h2, List.drop_succ_cons]
    | none =>
      rw [h2] at h
      by_cases hx : x = c
      · rw [if_pos hx] at h
        have hi0 : i = 0 := by
          cases h
          rfl
        subst hi0
        simp only [afterLastChar, afterLast_none c xs h2, if_pos hx, List.drop_succ_cons,
          List.drop_zero]
      · rw [if_neg hx] at h
        exact absurd h (by simp)

theorem jsSliceAfter (c : Char) (l : List Char) :
    jsSlice l (jsLastIndexOf l c + 1) = (afterLastChar c l).getD l := by
  unfold jsLastIndexOf
  cases h : lastIndexOfAux l c with
  | none =>
    rw [afterLast_none c l h]
    simp [jsSlice]
  | some i =>
    rw [afterLast_some c l i h]
    have hnn : ¬ ((i : Int) + 1 < 0) := by omega
    have ht : ((i : Int) + 1).toNat = i + 1 := by omega
    simp [jsSlice, hnn, ht]

theorem getExtension_eq (p : List Char) :
    getExtension p
      = ((afterLastChar '.' (lastSegmentSpec p)).getD []).map Char.toLower := by
  unfold getExtension lastSegmentSpec
  rw [jsSliceAfter '/' p]
  cases h : lastIndexOfAux ((afterLastChar '/' p).getD p) '.' with
  | none =>
    rw [afterLast_none '.' _ h]
    simp only [jsLastIndexOf, h, Option.getD_none]
    norm_num
    simp [jsSlice]
  | some i =>
    rw [afterLast_some '.' _ i h]
    simp only [jsLastIndexOf, h, Option.getD_some]
    have hne : ¬ ((i : Int) + 1 = 0) := by omega
    rw [if_neg hne]
    have hnn : ¬ ((i : Int) + 1 < 0) := by omega
    have ht : ((i : Int) + 1).toNat = i + 1 := by omega
    simp [jsSlice, hnn, ht]

/-- C8: `guessMimeType` computes exactly the spec's mime inference: the
case-insensitive text after the last `.` of the last `/`-delimited segment,
with `svg` ↦ `image/svg+xml`, `jpg` ↦ `image/jpeg`, any other extension
`ext` ↦ `image/ext`, and no (or empty) extension defaulting to `png`
(`image/png`). -/
theorem guessMimeType_spec_correct (p : List Char) :
    guessMimeType p = guessMimeTypeSpec p := by
  unfold guessMimeType guessMimeTypeSpec extensionSpec
  rw [getExtension_eq]
  cases h : afterLastChar '.' (lastSegmentSpec p) with
  | none =>
    simp only [Option.getD_none, List.map_nil, if_pos rfl]
    decide
  | some e =>
    by_cases he : e = []
    · subst he
      simp only [Option.getD_some, List.map_nil, if_pos rfl]
      decide
    · have hm : e.map Char.toLower ≠ [] := by
        simpa using he
      simp only [Option.getD_some, if_neg hm, if_neg he]
      by_cases h1 : e.map Char.toLower = jstr "svg"
      · simp [mimeMap, List.lookup, h1]
      · by_cases h2 : e.map Char.toLower = jstr "jpg"
        · simp only [mimeMap, List.lookup, h2]
          decide
        · have b1 : (e.map Char.toLower == jstr "svg") = false :=
            beq_eq_false_iff_ne.mpr h1
          have b2 : (e.map Char.toLower == jstr "jpg") = false :=
            beq_eq_false_iff_ne.mpr h2
          simp only [mimeMap, List.lookup, b1, b2]
          rw [if_neg h1, if_neg h2]

/-! Helper lemmas about `replaceFirstL` and occurrence analysis. -/

theorem getSubstitution_no_dollar (matched before after rep : List Char)
    (h : '$' ∉ rep) : getSubstitution matched before after rep = rep := by
  induction rep with
  | nil => rfl
  | cons c rest ih =>
    have hc : ¬ c = '$' := by
      intro hcc
      refine h ?_
      rw [← hcc]
      exact List.mem_cons_self c rest
    have hrest : '$' ∉ rest := fun hm => h (List.mem_cons_of_mem c hm)
    cases rest with
    | nil => simp [getSubstitution, hc]
    | cons d rest2 =>
      have h2 := ih hrest
      calc getSubstitution matched before after (c :: d :: rest2)
          = c :: getSubstitution matched before after (d :: rest2) := by
            conv_lhs => rw [getSubstitution]
            rw [if_neg hc]
        _ = c :: d :: rest2 := by rw [h2]

theorem replaceFirstAux_hit (before pat rest rep : List Char) :
    replaceFirstAux before (pat ++ rest) pat rep
      = getSubstitution pat before rest rep ++ rest := by
  cases pat with
  | nil =>
    cases rest with
    | nil => simp [replaceFirstAux, List.isPrefixOf]
    | cons c cs => simp [replaceFirstAux, List.isPrefixOf]
  | cons p ps =>
    have hpre : ((p :: ps).isPrefixOf (p :: (ps ++ rest))) = true := by
      rw [← List.cons_append]
      exact List.isPrefixOf_iff_prefix.mpr (List.prefix_append _ _)
    have hstep : replaceFirstAux before (p :: (ps ++ rest)) (p :: ps) rep
        = if (p :: ps).isPrefixOf (p :: (ps ++ rest))
          then getSubstitution (p :: ps) before
              ((p :: (ps ++ rest)).drop (p :: ps).length) rep
            ++ (p :: (ps ++ rest)).drop (p :: ps).length
          else p :: replaceFirstAux (before ++ [p]) (ps ++ rest) (p :: ps) rep := rfl
    rw [List.cons_append, hstep, if_pos hpre]
    simp only [List.length_cons, List.drop_succ_cons, List.drop_left]

theorem replaceFirstAux_cons_nohit (before : List Char) (c : Char)
    (cs pat rep : List Char) (h : pat.isPrefixOf (c :: cs) = false) :
    replaceFirstAux before (c :: cs) pat rep
      = c :: replaceFirstAux (before ++ [c]) cs pat rep := by
  simp only [replaceFirstAux, h, Bool.false_eq_true, if_false]

theorem replaceFirstAux_append (x : List Char) :
    ∀ (before y pat rep : List Char), noStartIn x y pat →
      replaceFirstAux before (x ++ y) pat rep
        = x ++ replaceFirstAux (before ++ x) y pat rep := by
  induction x with
  | nil =>
    intro before y pat rep h
    simp
  | cons c cs ih =>
    intro before y pat rep h
    have h0 : pat.isPrefixOf (c :: (cs ++ y)) = false := by
      have := h 0 (by simp)
      simpa using this
    have hcs : noStartIn cs y pat := by
      intro i hi
      have := h (i + 1) (by simpa using Nat.succ_lt_succ hi)
      simpa using this
    rw [List.cons_append, replaceFirstAux_cons_nohit _ _ _ _ _ h0,
      ih (before ++ [c]) y pat rep hcs]
    simp [List.append_assoc]

theorem isPrefixOf_false_of_mismatch (t pat y : List Char)
    (h : mismatchWithin t pat = true) : pat.isPrefixOf (t ++ y) = false := by
  obtain ⟨j, hjmem, hj⟩ := List.any_eq_true.mp h
  have hjlt := List.mem_range.mp hjmem
  have hjt : j < t.length := lt_of_lt_of_le hjlt (min_le_left _ _)
  have hjp : j < pat.length := lt_of_lt_of_le hjlt (min_le_right _ _)
  have hne : t[j]? ≠ pat[j]? := by
    intro he
    rw [he] at hj
    simp at hj
  by_contra hcon
  have hpre : pat <+: t ++ y :=
    List.isPrefixOf_iff_prefix.mp (Bool.not_eq_false _ ▸ hcon)
  obtain ⟨u, hu⟩ := hpre
  have h1 : (t ++ y)[j]? = t[j]? := by
    rw [List.getElem?_append, if_pos hjt]
  have h2 : (pat ++ u)[j]? = pat[j]? := by
    rw [List.getElem?_append, if_pos hjp]
  rw [hu] at h2
  exact hne (h1 ▸ h2 ▸ rfl)

theorem noStartIn_of_cleanChunk (x pat : List Char) (h : cleanChunk x pat = true)
    (y : List Char) : noStartIn x y pat := by
  intro i hi
  have hmw : mismatchWithin (x.drop i) pat = true :=
    List.all_eq_true.mp h i (List.mem_range.mpr hi)
  exact isPrefixOf_false_of_mismatch _ _ y hmw

theorem noStartIn_of_head_notMem (x y : List Char) (p0 : Char) (ps : List Char)
    (hmem : p0 ∉ x) : noStartIn x y (p0 :: ps) := by
  intro i hi
  cases hd : x.drop i with
  | nil =>
    have : x.length ≤ i := List.drop_eq_nil_iff.mp hd
    omega
  | cons c rest =>
    cases hb : (p0 :: ps).isPrefixOf (c :: rest ++ y) with
    | false => rfl
    | true =>
      exfalso
      rw [List.cons_append] at hb
      simp only [List.isPrefixOf, Bool.and_eq_true, beq_iff_eq] at hb
      have hc : c ∈ x := by
        have hmemd : c ∈ x.drop i := by
          rw [hd]
          exact List.mem_cons_self _ _
        exact List.mem_of_mem_drop hmemd
      refine hmem ?_
      rw [hb.1]
      exact hc

/-- C10: for inserted strings that contain no `$` — so that GetSubstitution
inserts them verbatim and no placeholder-like text is smuggled in —
`expandHtmlTemplate` substitutes exactly the template's one occurrence of
each of `${title}`, `${body}` and `${stylesheet}` (in that order),
producing the template's four fixed chunks around the three inserted
strings; `${MERMAID_STYLESHEET}` is never substituted (its `.replace` line
is commented out) and survives as literal text in the `<style>` element —
`tmplChunkB`, which carries it, sits verbatim in the output. -/
theorem expandHtmlTemplate_spec (title html styleSheet : List Char)
    (ht : '$' ∉ title) (hh : '$' ∉ html) (hs : '$' ∉ styleSheet) :
    expandHtmlTemplate title html styleSheet
      = tmplChunkA ++ title ++ tmplChunkB ++ styleSheet ++ tmplChunkC ++ html ++ tmplChunkD ∧
    mermaidPlaceholder <:+: expandHtmlTemplate title html styleSheet := by
  have cA_t : cleanChunk tmplChunkA (jstr "${title}") = true := by decide
  have cA_b : cleanChunk tmplChunkA (jstr "${body}") = true := by decide
  have cA_s : cleanChunk tmplChunkA (jstr "${stylesheet}") = true := by decide
  have cB_b : cleanChunk tmplChunkB (jstr "${body}") = true := by decide
  have cB_s : cleanChunk tmplChunkB (jstr "${stylesheet}") = true := by decide
  have cS_b : cleanChunk (jstr "${stylesheet}") (jstr "${body}") = true := by decide
  have cC_b : cleanChunk tmplChunkC (jstr "${body}") = true := by decide
  have hTb : ∀ y, noStartIn title y (jstr "${body}") := by
    intro y
    rw [show (jstr "${body}") = '$' :: jstr "{body}" from by decide]
    exact noStartIn_of_head_notMem title y '$' _ ht
  have hTs : ∀ y, noStartIn title y (jstr "${stylesheet}") := by
    intro y
    rw [show (jstr "${stylesheet}") = '$' :: jstr "{stylesheet}" from by decide]
    exact noStartIn_of_head_notMem title y '$' _ ht
  have htemplate : DEFAULT_HTML_TEMPLATE
      = tmplChunkA ++ (jstr "${title}" ++ (tmplChunkB ++ (jstr "${stylesheet}"
          ++ (tmplChunkC ++ (jstr "${body}" ++ tmplChunkD))))) := by decide
  unfold expandHtmlTemplate replaceFirstL
  rw [htemplate]
  rw [replaceFirstAux_append _ _ _ _ _ (noStartIn_of_cleanChunk _ _ cA_t _)]
  rw [replaceFirstAux_hit]
  rw [getSubstitution_no_dollar _ _ _ _ ht]
  rw [replaceFirstAux_append _ _ _ _ _ (noStartIn_of_cleanChunk _ _ cA_b _)]
  rw [replaceFirstAux_append _ _ _ _ _ (hTb _)]
  rw [replaceFirstAux_append _ _ _ _ _ (noStartIn_of_cleanChunk _ _ cB_b _)]
  rw [replaceFirstAux_append _ _ _ _ _ (noStartIn_of_cleanChunk _ _ cS_b _)]
  rw [replaceFirstAux_append _ _ _ _ _ (noStartIn_of_cleanChunk _ _ cC_b _)]
  rw [replaceFirstAux_hit]
  rw [getSubstitution_no_dollar _ _ _ _ hh]
  rw [replaceFirstAux_append _ _ _ _ _ (noStartIn_of_cleanChunk _ _ cA_s _)]
  rw [replaceFirstAux_append _ _ _ _ _ (hTs _)]
  rw [replaceFirstAux_append _ _ _ _ _ (noStartIn_of_cleanChunk _ _ cB_s _)]
  rw [replaceFirstAux_hit]
  rw [getSubstitution_no_dollar _ _ _ _ hs]
  constructor
  · simp [List.append_assoc]
  · refine ⟨tmplChunkA ++ title ++ jstr "</title>\n  <style>\n    ",
      jstr "\n    " ++ styleSheet ++ tmplChunkC ++ html ++ tmplChunkD, ?_⟩
    rw [show tmplChunkB
        = jstr "</title>\n  <style>\n    " ++ (mermaidPlaceholder ++ jstr "\n    ")
      from by decide]
    simp [List.append_assoc]

/-- C10 (witness): concrete title, body and stylesheet, none containing a
`$` substitution pattern. -/
theorem expandHtmlTemplate_spec_witness :
    ('$' ∉ jstr "T" ∧ '$' ∉ jstr "B" ∧ '$' ∉ jstr "S") ∧
    expandHtmlTemplate (jstr "T") (jstr "B") (jstr "S")
      = tmplChunkA ++ jstr "T" ++ tmplChunkB ++ jstr "S" ++ tmplChunkC
        ++ jstr "B" ++ tmplChunkD :=
  ⟨⟨by decide, by decide, by decide⟩,
   (expandHtmlTemplate_spec (jstr "T") (jstr "B") (jstr "S")
     (by decide) (by decide) (by decide)).1⟩

/-! Helper lemmas for the image-resolution idempotence proof. -/

theorem prefix_of_prefix_le (p1 p2 s : List Char) (h1 : p1.isPrefixOf s = true)
    (h2 : p2.isPrefixOf s = true) (hl : p1.length ≤ p2.length) :
    p1.isPrefixOf p2 = true :=
  List.isPrefixOf_iff_prefix.mpr
    (List.prefix_of_prefix_length_le (List.isPrefixOf_iff_prefix.mp h1)
      (List.isPrefixOf_iff_prefix.mp h2) hl)

theorem isPrefixOf_append_left (pat x y : List Char) (h : pat.isPrefixOf x = true) :
    pat.isPrefixOf (x ++ y) = true :=
  List.isPrefixOf_iff_prefix.mpr
    ((List.isPrefixOf_iff_prefix.mp h).trans (List.prefix_append x y))

theorem isPrefixOf_self (p : List Char) : p.isPrefixOf p = true :=
  List.isPrefixOf_iff_prefix.mpr List.prefix_rfl

theorem prefix_length_le (p s : List Char) (h : p.isPrefixOf s = true) :
    p.length ≤ s.length :=
  (List.isPrefixOf_iff_prefix.mp h).length_le

/-- A `data:`-form source never carries the `app://local/<vault>` prefix
(after `decodeURI`, which keeps a literal `data:` scheme in place). -/
theorem notVault_of_dataPrefix (env : ImgEnv)
    (hpfx : (jstr "app://local").isPrefixOf env.vaultPrefix = true)
    (hdec : ∀ s, (jstr "data:").isPrefixOf s = true →
      (jstr "data:").isPrefixOf (env.decode s) = true)
    (u : List Char) (hu : (jstr "data:").isPrefixOf u = true) :
    env.vaultPrefix.isPrefixOf (env.decode u) = false := by
  cases hb : env.vaultPrefix.isPrefixOf (env.decode u) with
  | false => rfl
  | true =>
    exfalso
    have hd := hdec u hu
    have hl1 : (jstr "data:").length ≤ env.vaultPrefix.length := by
      have hle := prefix_length_le _ _ hpfx
      have h5 : (jstr "data:").length = 5 := by decide
      have h11 : (jstr "app://local").length = 11 := by decide
      omega
    have hdp : (jstr "data:").isPrefixOf env.vaultPrefix = true :=
      prefix_of_prefix_le _ _ _ hd hb hl1
    have hfinal : (jstr "data:").isPrefixOf (jstr "app://local") = true :=
      prefix_of_prefix_le _ _ _ hdp hpfx (by decide)
    exact absurd hfinal (by decide)

/-- A `data:image/png` source is skipped by the image pass. -/
theorem embedImageSrc_skip_png (env : ImgEnv) (c : Bool) (p : List Char)
    (hp : (jstr "data:image/png").isPrefixOf p = true) :
    embedImageSrc env c p = Except.ok p := by
  have hne : p ≠ [] := by
    intro h0
    rw [h0] at hp
    exact absurd hp (by decide)
  have hdata : (jstr "data:").isPrefixOf p = true :=
    List.isPrefixOf_iff_prefix.mpr
      (((by decide : (jstr "data:").isPrefixOf (jstr "data:image/png") = true)
        |> List.isPrefixOf_iff_prefix.mp).trans (List.isPrefixOf_iff_prefix.mp hp))
  have hnsvg : ¬(((jstr "data:image/svg+xml").isPrefixOf p = true) ∧ c = true) := by
    rintro ⟨hsv, _⟩
    have hcl : (jstr "data:image/png").isPrefixOf (jstr "data:image/svg+xml") = true :=
      prefix_of_prefix_le _ _ _ hp hsv (by decide)
    exact absurd hcl (by decide)
  unfold embedImageSrc
  rw [if_neg hne, if_neg hnsvg, if_neg (not_not_intro hdata)]

/-- Any `data:` source that is not an svg-to-bitmap candidate is skipped. -/
theorem embedImageSrc_skip_data (env : ImgEnv) (c : Bool) (u : List Char)
    (hd : (jstr "data:").isPrefixOf u = true)
    (hno : ¬(((jstr "data:image/svg+xml").isPrefixOf u = true) ∧ c = true)) :
    embedImageSrc env c u = Except.ok u := by
  have hne : u ≠ [] := by
    intro h0
    rw [h0] at hd
    exact absurd hd (by decide)
  unfold embedImageSrc
  rw [if_neg hne, if_neg hno, if_neg (not_not_intro hd)]

/-- Every mime type `guessMimeType` can produce is at least `image/` long. -/
theorem guessMimeType_length (p : List Char) : 6 ≤ (guessMimeType p).length := by
  unfold guessMimeType
  by_cases h1 : (if getExtension p = [] then jstr "png" else getExtension p) = jstr "svg"
  · rw [h1]
    decide
  · by_cases h2 : (if getExtension p = [] then jstr "png" else getExtension p) = jstr "jpg"
    · rw [h2]
      decide
    · have b1 : ((if getExtension p = [] then jstr "png" else getExtension p)
          == jstr "svg") = false := beq_eq_false_iff_ne.mpr h1
      have b2 : ((if getExtension p = [] then jstr "png" else getExtension p)
          == jstr "jpg") = false := beq_eq_false_iff_ne.mpr h2
      simp only [mimeMap, List.lookup, b1, b2, List.length_append]
      have : (jstr "image/").length = 6 := by decide
      omega

/-- The per-image resolution step is a fixpoint on its own outputs: whatever
`embedImageSrc` produced for some source, a second application leaves it
unchanged.  Hypotheses are the contracts of the external collaborators:
the vault URI prefix is an `app://local/...` URI; `decodeURI` keeps a
literal `data:` scheme in place; a successful canvas export is a
`data:image/png` URI (`toDataURL('image/png')`); and no vault path has an
extension whose guessed mime type makes its data URI start with
`data:image/svg+xml` without being exactly `image/svg+xml`. -/
theorem embedImageSrc_fixed (env : ImgEnv) (c : Bool)
    (hpfx : (jstr "app://local").isPrefixOf env.vaultPrefix = true)
    (hdec : ∀ s, (jstr "data:").isPrefixOf s = true →
      (jstr "data:").isPrefixOf (env.decode s) = true)
    (hcanvas : ∀ u p, env.canvas u = CanvasOutcome.success p →
      (jstr "data:image/png").isPrefixOf p = true)
    (hmime : ∀ path b64, env.vaultRead path = some b64 →
      (jstr "data:image/svg+xml").isPrefixOf
        (jstr "data:" ++ guessMimeType path ++ jstr ";base64,") = true →
      guessMimeType path = jstr "image/svg+xml")
    (s s' : List Char) (h : embedImageSrc env c s = Except.ok s') :
    embedImageSrc env c s' = Except.ok s' := by
  by_cases hs0 : s = []
  · subst hs0
    unfold embedImageSrc at h
    rw [if_pos rfl] at h
    cases h
    unfold embedImageSrc
    rw [if_pos rfl]
  · suffices hsuf : replaceImageSource env c s = Except.ok s' →
        embedImageSrc env c s' = Except.ok s' by
      unfold embedImageSrc at h
      rw [if_neg hs0] at h
      by_cases hc2 : ((jstr "data:image/svg+xml").isPrefixOf s = true) ∧ (c = true)
      · rw [if_pos hc2] at h
        exact hsuf h
      · rw [if_neg hc2] at h
        by_cases hc3 : (jstr "data:").isPrefixOf s = true
        · rw [if_neg (not_not_intro hc3)] at h
          cases h
          unfold embedImageSrc
          rw [if_neg hs0, if_neg hc2, if_neg (not_not_intro hc3)]
        · rw [if_pos hc3] at h
          exact hsuf h
    intro hrep
    simp only [replaceImageSource] at hrep
    by_cases hv : env.vaultPrefix.isPrefixOf (env.decode s) = true
    · rw [if_pos hv] at hrep
      cases hvr : env.vaultRead
          (env.decode (stripQueryFragment
            ((env.decode s).drop (env.vaultPrefix.length + 1)))) with
      | none =>
        simp only [readFromVault, hvr] at hrep
        exact absurd hrep (by simp)
      | some b64 =>
        simp only [readFromVault, hvr] at hrep
        have hdataPfx : (jstr "data:").isPrefixOf
            (jstr "data:"
              ++ guessMimeType (env.decode (stripQueryFragment
                  ((env.decode s).drop (env.vaultPrefix.length + 1))))
              ++ jstr ";base64," ++ b64) = true := by
          apply isPrefixOf_append_left
          apply isPrefixOf_append_left
          apply isPrefixOf_append_left
          exact isPrefixOf_self _
        by_cases hsvg : guessMimeType (env.decode (stripQueryFragment
            ((env.decode s).drop (env.vaultPrefix.length + 1))))
              = jstr "image/svg+xml" ∧ c = true
        · rw [if_pos hsvg] at hrep
          cases hrep
          cases hcv : env.canvas (jstr "data:"
              ++ guessMimeType (env.decode (stripQueryFragment
                  ((env.decode s).drop (env.vaultPrefix.length + 1))))
              ++ jstr ";base64," ++ b64) with
          | success p =>
            have hi : imageToDataUri env (jstr "data:"
                ++ guessMimeType (env.decode (stripQueryFragment
                    ((env.decode s).drop (env.vaultPrefix.length + 1))))
                ++ jstr ";base64," ++ b64) = p := by
              simp only [imageToDataUri, hcv]
            rw [hi]
            exact embedImageSrc_skip_png env c p (hcanvas _ _ hcv)
          | exportFailure =>
            have hi : imageToDataUri env (jstr "data:"
                ++ guessMimeType (env.decode (stripQueryFragment
                    ((env.decode s).drop (env.vaultPrefix.length + 1))))
                ++ jstr ";base64," ++ b64) = jstr "data:"
                ++ guessMimeType (env.decode (stripQueryFragment
                    ((env.decode s).drop (env.vaultPrefix.length + 1))))
                ++ jstr ";base64," ++ b64 := by
              simp only [imageToDataUri, hcv]
            rw [hi]
            have hsvgd : (jstr "data:image/svg+xml").isPrefixOf (jstr "data:"
                ++ guessMimeType (env.decode (stripQueryFragment
                    ((env.decode s).drop (env.vaultPrefix.length + 1))))
                ++ jstr ";base64," ++ b64) = true := by
              rw [hsvg.1]
              apply isPrefixOf_append_left
              apply isPrefixOf_append_left
              decide
            have hne : (jstr "data:"
                ++ guessMimeType (env.decode (stripQueryFragment
                    ((env.decode s).drop (env.vaultPrefix.length + 1))))
                ++ jstr ";base64," ++ b64) ≠ [] := by
              intro h0
              rw [h0] at hdataPfx
              exact absurd hdataPfx (by decide)
            have hnv := notVault_of_dataPrefix env hpfx hdec _ hdataPfx
            unfold embedImageSrc
            rw [if_neg hne, if_pos ⟨hsvgd, hsvg.2⟩]
            simp only [replaceImageSource]
            rw [if_neg (by rw [hnv]; exact Bool.false_ne_true)]
            simp only [imageToDataUri, hcv]
          | loadFailure =>
            have hi : imageToDataUri env (jstr "data:"
                ++ guessMimeType (env.decode (stripQueryFragment
                    ((env.decode s).drop (env.vaultPrefix.length + 1))))
                ++ jstr ";base64," ++ b64) = jstr "data:"
                ++ guessMimeType (env.decode (stripQueryFragment
                    ((env.decode s).drop (env.vaultPrefix.length + 1))))
                ++ jstr ";base64," ++ b64 := by
              simp only [imageToDataUri, hcv]
            rw [hi]
            have hsvgd : (jstr "data:image/svg+xml").isPrefixOf (jstr "data:"
                ++ guessMimeType (env.decode (stripQueryFragment
                    ((env.decode s).drop (env.vaultPrefix.length + 1))))
                ++ jstr ";base64," ++ b64) = true := by
              rw [hsvg.1]
              apply isPrefixOf_append_left
              apply isPrefixOf_append_left
              decide
            have hne : (jstr "data:"
                ++ guessMimeType (env.decode (stripQueryFragment
                    ((env.decode s).drop (env.vaultPrefix.length + 1))))
                ++ jstr ";base64," ++ b64) ≠ [] := by
              intro h0
              rw [h0] at hdataPfx
              exact absurd hdataPfx (by decide)
            have hnv := notVault_of_dataPrefix env hpfx hdec _ hdataPfx
            unfold embedImageSrc
            rw [if_neg hne, if_pos ⟨hsvgd, hsvg.2⟩]
            simp only [replaceImageSource]
            rw [if_neg (by rw [hnv]; exact Bool.false_ne_true)]
            simp only [imageToDataUri, hcv]
        · rw [if_neg hsvg] at hrep
          cases hrep
          have hno : ¬(((jstr "data:image/svg+xml").isPrefixOf (jstr "data:"
              ++ guessMimeType (env.decode (stripQueryFragment
                  ((env.decode s).drop (env.vaultPrefix.length + 1))))
              ++ jstr ";base64," ++ b64) = true) ∧ c = true) := by
            rintro ⟨hsd, hcc⟩
            have hXp : (jstr "data:"
                ++ guessMimeType (env.decode (stripQueryFragment
                    ((env.decode s).drop (env.vaultPrefix.length + 1))))
                ++ jstr ";base64,").isPrefixOf (jstr "data:"
                ++ guessMimeType (env.decode (stripQueryFragment
                    ((env.decode s).drop (env.vaultPrefix.length + 1))))
                ++ jstr ";base64," ++ b64) = true :=
              isPrefixOf_append_left _ _ _ (isPrefixOf_self _)
            have hlen : (jstr "data:image/svg+xml").length
                ≤ (jstr "data:"
                  ++ guessMimeType (env.decode (stripQueryFragment
                      ((env.decode s).drop (env.vaultPrefix.length + 1))))
                  ++ jstr ";base64,").length := by
              have hm6 := guessMimeType_length (env.decode (stripQueryFragment
                  ((env.decode s).drop (env.vaultPrefix.length + 1))))
              have h18 : (jstr "data:image/svg+xml").length = 18 := by decide
              have h5 : (jstr "data:").length = 5 := by decide
              have h8 : (jstr ";base64,").length = 8 := by decide
              simp only [List.length_append]
              omega
            have hX := prefix_of_prefix_le _ _ _ hsd hXp hlen
            have := hmime _ b64 hvr hX
            exact hsvg ⟨this, hcc⟩
          exact embedImageSrc_skip_data env c _ hdataPfx hno
    · rw [if_neg hv] at hrep
      cases hrep
      cases hcv : env.canvas s with
      | success p =>
        have hi : imageToDataUri env s = p := by
          simp only [imageToDataUri, hcv]
        rw [hi]
        exact embedImageSrc_skip_png env c p (hcanvas _ _ hcv)
      | exportFailure =>
        have hi : imageToDataUri env s = s := by
          simp only [imageToDataUri, hcv]
        rw [hi]
        unfold embedImageSrc
        rw [if_neg hs0]
        by_cases hc2 : ((jstr "data:image/svg+xml").isPrefixOf s = true) ∧ (c = true)
        · rw [if_pos hc2]
          simp only [replaceImageSource]
          rw [if_neg hv]
          rw [hi]
        · rw [if_neg hc2]
          by_cases hc3 : (jstr "data:").isPrefixOf s = true
          · rw [if_neg (not_not_intro hc3)]
          · rw [if_pos hc3]
            simp only [replaceImageSource]
            rw [if_neg hv]
            rw [hi]
      | loadFailure =>
        have hi : imageToDataUri env s = s := by
          simp only [imageToDataUri, hcv]
        rw [hi]
        unfold embedImageSrc
        rw [if_neg hs0]
        by_cases hc2 : ((jstr "data:image/svg+xml").isPrefixOf s = true) ∧ (c = true)
        · rw [if_pos hc2]
          simp only [replaceImageSource]
          rw [if_neg hv]
          rw [hi]
        · rw [if_neg hc2]
          by_cases hc3 : (jstr "data:").isPrefixOf s = true
          · rw [if_neg (not_not_intro hc3)]
          · rw [if_pos hc3]
            simp only [replaceImageSource]
            rw [if_neg hv]
            rw [hi]

/-- Await-all over a fixpoint-closed step is idempotent elementwise. -/
theorem mapME_fixed {f : List Char → Except (List Char) (List Char)}
    (hf : ∀ a b, f a = Except.ok b → f b = Except.ok b) :
    ∀ t t', mapME f t = Except.ok t' →
      mapME f t' = Except.ok t' ∧ ∀ s ∈ t', f s = Except.ok s := by
  intro t
  induction t with
  | nil =>
    intro t' h
    simp only [mapME] at h
    cases h
    exact ⟨rfl, by simp⟩
  | cons a as ih =>
    intro t' h
    simp only [mapME] at h
    cases hfa : f a with
    | error e =>
      rw [hfa] at h
      exact absurd h (by simp)
    | ok b =>
      rw [hfa] at h
      cases hms : mapME f as with
      | error e =>
        rw [hms] at h
        exact absurd h (by simp)
      | ok bs =>
        rw [hms] at h
        cases h
        obtain ⟨ih1, ih2⟩ := ih bs hms
        have hfb := hf a b hfa
        refine ⟨?_, ?_⟩
        · simp only [mapME, hfb, ih1]
        · intro s hs
          rcases List.mem_cons.mp hs with hh | hh
          · rw [hh]
            exact hfb
          · exact ih2 s hh

/-- C6: the image-resolution pass is idempotent — if one run of
`embedImages` succeeds with output `t'`, a second run maps `t'` to itself,
and in particular every source in the once-run tree (all data-URI sources
included) is left unchanged by the second pass.  The hypotheses are the
external collaborators' contracts: the vault prefix is an `app://local/...`
URI, `decodeURI` preserves a literal `data:` scheme, a successful canvas
export is a `data:image/png` URI, and no vault file's guessed mime type
masquerades as `image/svg+xml` without being it. -/
theorem embedImages_idempotent (env : ImgEnv) (c : Bool)
    (hpfx : (jstr "app://local").isPrefixOf env.vaultPrefix = true)
    (hdec : ∀ s, (jstr "data:").isPrefixOf s = true →
      (jstr "data:").isPrefixOf (env.decode s) = true)
    (hcanvas : ∀ u p, env.canvas u = CanvasOutcome.success p →
      (jstr "data:image/png").isPrefixOf p = true)
    (hmime : ∀ path b64, env.vaultRead path = some b64 →
      (jstr "data:image/svg+xml").isPrefixOf
        (jstr "data:" ++ guessMimeType path ++ jstr ";base64,") = true →
      guessMimeType path = jstr "image/svg+xml")
    (t t' : List (List Char)) (h : embedImages env c t = Except.ok t') :
    embedImages env c t' = Except.ok t' ∧
    ∀ s ∈ t', embedImageSrc env c s = Except.ok s :=
  mapME_fixed (embedImageSrc_fixed env c hpfx hdec hcanvas hmime) t t' h

/-- C6 (witness): a two-image tree — a vault-local png and an
already-embedded data URI — resolved once and then again. -/
theorem embedImages_idempotent_witness :
    embedImages c6Env false
        [jstr "app://local/v/img.png", jstr "data:image/png;base64,BB"]
      = Except.ok [jstr "data:image/png;base64,AAA", jstr "data:image/png;base64,BB"] ∧
    embedImages c6Env false
        [jstr "data:image/png;base64,AAA", jstr "data:image/png;base64,BB"]
      = Except.ok [jstr "data:image/png;base64,AAA", jstr "data:image/png;base64,BB"] := by
  have h1 : embedImages c6Env false
      [jstr "app://local/v/img.png", jstr "data:image/png;base64,BB"]
      = Except.ok [jstr "data:image/png;base64,AAA", jstr "data:image/png;base64,BB"] := by
    rfl
  refine ⟨h1, ?_⟩
  have hmimeW : ∀ path b64, c6Env.vaultRead path = some b64 →
      (jstr "data:image/svg+xml").isPrefixOf
        (jstr "data:" ++ guessMimeType path ++ jstr ";base64,") = true →
      guessMimeType path = jstr "image/svg+xml" := by
    intro path b64 hr hsv
    by_cases hp : path = jstr "img.png"
    · rw [hp] at hsv
      exact absurd hsv (by decide)
    · simp only [c6Env, if_neg hp] at hr
      exact absurd hr (by simp)
  exact (embedImages_idempotent c6Env false (by decide) (fun s hs => hs)
    (fun u p hsp => nomatch hsp) hmimeW _ _ h1).1
